import Mathlib

/-!
Verification of the rofl-x402-service core: a shallow embedding of the
job-handling endpoints (app/main.py), the response-signing service
(app/signing.py, verification procedure from app/test_signing.py) and the
Ollama provider module (app/ollama_provider.py), together with proofs about
the canonical JSON serialization, the signing envelope, and the job
lifecycle.

Conventions of the embedding:
- Python dicts are association lists in insertion order (`setD` replaces in
  place or appends, exactly like dict assignment; `lookupD` finds the unique
  entry for a key).
- JSON-serializable values are the inductive `JValue`.
- `canonicalize` mirrors json.dumps(data, sort_keys=True,
  separators=(",", ":")) with the default ensure_ascii=True, producing the
  list of (ASCII) characters of the serialization.
- Fallible Python calls are modelled with `Except`; a `try/except` block is
  a `match` on the `Except` value.
- The SECP256K1 primitives from the coincurve library are model parameters
  (types `Key`, `Sig`, `PubKey` with the operations used by the code); their
  cryptographic properties appear as explicit hypotheses where a claim
  depends on them.
-/

/-! ## Dictionaries (Python dict as insertion-ordered association list) -/

/-- Python dict lookup: the unique binding of a key, if present. -/
def lookupD {α : Type} : List (String × α) → String → Option α
  | [], _ => none
  | kv :: rest, k => if kv.1 = k then some kv.2 else lookupD rest k

/-- Python dict assignment d[k] = v: replace in place, or append if absent. -/
def setD {α : Type} : List (String × α) → String → α → List (String × α)
  | [], k, v => [(k, v)]
  | kv :: rest, k, v => if kv.1 = k then (k, v) :: rest else kv :: setD rest k v

/-- No two entries share a key (always true of a real Python dict). -/
def nodupKeys {α : Type} : List (String × α) → Bool
  | [] => true
  | kv :: rest => !(rest.any fun kw => kw.1 == kv.1) && nodupKeys rest

theorem lookupD_setD_self {α : Type} (d : List (String × α)) (k : String) (v : α) :
    lookupD (setD d k v) k = some v := by
  induction d with
  | nil => simp [setD, lookupD]
  | cons kv rest ih =>
    by_cases h : kv.1 = k
    · simp [setD, h, lookupD]
    · simp [setD, h, lookupD, ih]

theorem lookupD_setD_ne {α : Type} (d : List (String × α)) (k k' : String) (v : α)
    (h : k ≠ k') : lookupD (setD d k v) k' = lookupD d k' := by
  induction d with
  | nil => simp [setD, lookupD, h]
  | cons kv rest ih =>
    by_cases hk : kv.1 = k
    · simp [setD, hk, lookupD, h]
    · simp [setD, hk, lookupD, ih]

theorem lookupD_eq_none {α : Type} (d : List (String × α)) (k : String)
    (h : ∀ kv ∈ d, kv.1 ≠ k) : lookupD d k = none := by
  induction d with
  | nil => rfl
  | cons kv rest ih =>
    simp only [lookupD]
    rw [if_neg (h kv (by simp))]
    exact ih fun kw hw => h kw (by simp [hw])

/-! ## Decimal and hexadecimal digit rendering -/

/-- The sixteen lowercase hexadecimal digit characters. -/
def hexChars : List Char :=
  ((List.range 10).map fun n => Char.ofNat (48 + n)) ++ ['a', 'b', 'c', 'd', 'e', 'f']

/-- Hexadecimal digit character for a value below 16. -/
def hexDigit (n : Nat) : Char := hexChars.getD n '0'

theorem hexDigit_ascii (n : Nat) : (hexDigit n).toNat < 128 := by
  unfold hexDigit List.getD
  cases h : hexChars.get? n with
  | none => simp [h]
  | some c =>
    have hc : c ∈ hexChars := List.get?_mem h
    have : ∀ d ∈ hexChars, d.toNat < 128 := by decide
    simpa [h] using this c hc

/-- Decimal digits of a natural number, most significant first, with
explicit fuel (the fuel is always sufficient when it exceeds the number of
digits; `natDigs` supplies n + 1). -/
def natDigsAux : Nat → Nat → List Char
  | 0, _ => []
  | fuel + 1, n =>
    if n < 10 then [hexDigit n] else natDigsAux fuel (n / 10) ++ [hexDigit (n % 10)]

/-- Decimal rendering of a natural number, as Python str(n). -/
def natDigs (n : Nat) : List Char := natDigsAux (n + 1) n

theorem natDigsAux_ascii (fuel n : Nat) : ∀ c ∈ natDigsAux fuel n, c.toNat < 128 := by
  induction fuel generalizing n with
  | zero => simp [natDigsAux]
  | succ fuel ih =>
    intro c hc
    simp only [natDigsAux] at hc
    by_cases h : n < 10
    · simp [h] at hc
      simpa [hc] using hexDigit_ascii n
    · simp [h] at hc
      rcases hc with hc | hc
      · exact ih (n / 10) c hc
      · simpa [hc] using hexDigit_ascii (n % 10)

/-- Python rendering of an int: optional minus sign then decimal digits
(exactly what json.dumps emits for an int). -/
def intStr (n : Int) : List Char :=
  if n < 0 then '-' :: natDigs n.natAbs else natDigs n.toNat

theorem intStr_ascii (n : Int) : ∀ c ∈ intStr n, c.toNat < 128 := by
  intro c hc
  unfold intStr at hc
  by_cases h : n < 0
  · simp [h] at hc
    rcases hc with hc | hc
    · simp [hc]
    · exact natDigsAux_ascii _ _ c hc
  · simp [h] at hc
    exact natDigsAux_ascii _ _ c hc

/-! ## JSON string escaping (json.dumps default, ensure_ascii=True) -/

/-- The \uXXXX escape for a code unit below 0x10000. -/
def uEsc (n : Nat) : List Char :=
  ['\\', 'u', hexDigit (n / 4096 % 16), hexDigit (n / 256 % 16),
   hexDigit (n / 16 % 16), hexDigit (n % 16)]

/-- Escape of one character, as the CPython json encoder with
ensure_ascii=True: quote and backslash escaped, the five named control
escapes, printable ASCII passed through, everything else (including all
non-ASCII) as \uXXXX, with a surrogate pair above 0xFFFF. -/
def escChar (c : Char) : List Char :=
  if c = '"' then ['\\', '"']
  else if c = '\\' then ['\\', '\\']
  else if c.toNat = 8 then ['\\', 'b']
  else if c.toNat = 9 then ['\\', 't']
  else if c.toNat = 10 then ['\\', 'n']
  else if c.toNat = 12 then ['\\', 'f']
  else if c.toNat = 13 then ['\\', 'r']
  else if 32 ≤ c.toNat ∧ c.toNat ≤ 126 then [c]
  else if c.toNat < 65536 then uEsc c.toNat
  else uEsc (55296 + (c.toNat - 65536) / 1024) ++ uEsc (56320 + (c.toNat - 65536) % 1024)

theorem uEsc_ascii (n : Nat) : ∀ c ∈ uEsc n, c.toNat < 128 := by
  intro c hc
  simp [uEsc] at hc
  rcases hc with h | h | h | h | h | h <;> subst h <;>
    first
      | decide
      | exact hexDigit_ascii _

theorem escChar_ascii (c : Char) : ∀ d ∈ escChar c, d.toNat < 128 := by
  intro d hd
  unfold escChar at hd
  repeat' split at hd
  all_goals
    first
      | exact uEsc_ascii _ d hd
      | (rcases List.mem_append.1 hd with h | h
         · exact uEsc_ascii _ d h
         · exact uEsc_ascii _ d h)
      | (fin_cases hd <;> first | decide | omega)

/-- Escape every character of a list. -/
def escList : List Char → List Char
  | [] => []
  | c :: rest => escChar c ++ escList rest

theorem escList_ascii (l : List Char) : ∀ c ∈ escList l, c.toNat < 128 := by
  induction l with
  | nil => simp [escList]
  | cons c rest ih =>
    intro d hd
    simp [escList] at hd
    rcases hd with h | h
    · exact escChar_ascii c d h
    · exact ih d h

/-- JSON encoding of a string: quoted, escaped. -/
def encStr (s : String) : List Char := '"' :: (escList s.data ++ ['"'])

theorem encStr_ascii (s : String) : ∀ c ∈ encStr s, c.toNat < 128 := by
  intro c hc
  simp [encStr] at hc
  rcases hc with h | h | h
  · simp [h]
  · exact escList_ascii _ c h
  · simp [h]

/-! ## Lexicographic key order (Python string comparison on code points) -/

/-- Lexicographic comparison of character lists by code point, as Python
string less-or-equal. -/
def lexLe : List Char → List Char → Bool
  | a :: as, b :: bs => if a = b then lexLe as bs else decide (a.toNat < b.toNat)
  | [], _ => true
  | _, [] => false

/-- Python string comparison, used by sorted() on dict keys. -/
def keyLe (a b : String) : Bool := lexLe a.data b.data

theorem charToNat_inj {a b : Char} (h : a.toNat = b.toNat) : a = b := by
  have := congrArg Char.ofNat h
  simpa [Char.ofNat_toNat] using this

theorem lexLe_total (x y : List Char) : lexLe x y = true ∨ lexLe y x = true := by
  induction x generalizing y with
  | nil => left; cases y <;> rfl
  | cons a as ih =>
    cases y with
    | nil => right; rfl
    | cons b bs =>
      by_cases hab : a = b
      · subst hab
        simpa [lexLe] using ih bs
      · have hn : a.toNat ≠ b.toNat := fun hc => hab (charToNat_inj hc)
        rcases Nat.lt_or_ge a.toNat b.toNat with hlt | hge
        · left; simp [lexLe, hab, hlt]
        · right
          have hba : b ≠ a := fun hc => hab hc.symm
          have : b.toNat < a.toNat := lt_of_le_of_ne hge (fun hc => hn hc.symm)
          simp [lexLe, hba, this]

theorem lexLe_antisymm {x y : List Char} (h1 : lexLe x y = true)
    (h2 : lexLe y x = true) : x = y := by
  induction x generalizing y with
  | nil =>
    cases y with
    | nil => rfl
    | cons b bs => simp [lexLe] at h2
  | cons a as ih =>
    cases y with
    | nil => simp [lexLe] at h1
    | cons b bs =>
      by_cases hab : a = b
      · subst hab
        simp only [lexLe, if_pos rfl] at h1 h2
        rw [ih h1 h2]
      · have hba : b ≠ a := fun hc => hab hc.symm
        simp only [lexLe, if_neg hab, decide_eq_true_eq] at h1
        simp only [lexLe, if_neg hba, decide_eq_true_eq] at h2
        omega

theorem lexLe_trans {x y z : List Char} (h1 : lexLe x y = true)
    (h2 : lexLe y z = true) : lexLe x z = true := by
  induction x generalizing y z with
  | nil => cases z <;> rfl
  | cons a as ih =>
    cases y with
    | nil => simp [lexLe] at h1
    | cons b bs =>
      cases z with
      | nil => simp [lexLe] at h2
      | cons c cs =>
        by_cases hab : a = b
        · subst hab
          simp only [lexLe, if_pos rfl] at h1
          by_cases hbc : a = c
          · subst hbc
            simp only [lexLe, if_pos rfl] at h2 ⊢
            exact ih h1 h2
          · simpa [lexLe, hbc] using h2
        · simp only [lexLe, if_neg hab, decide_eq_true_eq] at h1
          by_cases hbc : b = c
          · subst hbc
            simp [lexLe, hab, h1]
          · simp only [lexLe, if_neg hbc, decide_eq_true_eq] at h2
            have hac : a.toNat < c.toNat := Nat.lt_trans h1 h2
            have : a ≠ c := by
              intro hc
              subst hc
              omega
            simp [lexLe, this, hac]

theorem stringExt {s t : String} (h : s.data = t.data) : s = t := by
  cases s; cases t; cases h; rfl

theorem keyLe_total (a b : String) : keyLe a b = true ∨ keyLe b a = true :=
  lexLe_total a.data b.data

theorem keyLe_antisymm {a b : String} (h1 : keyLe a b = true)
    (h2 : keyLe b a = true) : a = b :=
  stringExt (lexLe_antisymm h1 h2)

theorem keyLe_trans {a b c : String} (h1 : keyLe a b = true)
    (h2 : keyLe b c = true) : keyLe a c = true :=
  lexLe_trans h1 h2

/-! ## Insertion sort of entries by key (the sorted() of json.dumps sort_keys) -/

/-- Order on entries: compare keys. -/
def entLe {α : Type} (a b : String × α) : Prop := keyLe a.1 b.1 = true

/-- Insert an entry into a key-sorted list of entries. -/
def insEnt {α : Type} (e : String × α) : List (String × α) → List (String × α)
  | [] => [e]
  | f :: rest => if keyLe e.1 f.1 then e :: f :: rest else f :: insEnt e rest

/-- Sort entries by key ascending (insertion sort). -/
def sortEnts {α : Type} : List (String × α) → List (String × α)
  | [] => []
  | e :: rest => insEnt e (sortEnts rest)

theorem insEnt_perm {α : Type} (e : String × α) (l : List (String × α)) :
    List.Perm (insEnt e l) (e :: l) := by
  induction l with
  | nil => exact List.Perm.refl _
  | cons f rest ih =>
    by_cases h : keyLe e.1 f.1
    · simp only [insEnt, if_pos h]
      exact List.Perm.refl _
    · simp only [insEnt, if_neg h]
      exact List.Perm.trans (ih.cons f) (List.Perm.swap e f rest)

theorem sortEnts_perm {α : Type} (l : List (String × α)) :
    List.Perm (sortEnts l) l := by
  induction l with
  | nil => exact List.Perm.refl _
  | cons e rest ih =>
    exact List.Perm.trans (insEnt_perm e (sortEnts rest)) (ih.cons e)

theorem mem_insEnt {α : Type} {x e : String × α} {l : List (String × α)} :
    x ∈ insEnt e l ↔ x = e ∨ x ∈ l := by
  constructor
  · intro h
    have := (insEnt_perm e l).mem_iff.1 h
    simpa using this
  · intro h
    apply (insEnt_perm e l).mem_iff.2
    simpa using h

theorem mem_sortEnts {α : Type} {x : String × α} {l : List (String × α)} :
    x ∈ sortEnts l ↔ x ∈ l := (sortEnts_perm l).mem_iff

theorem insEnt_pairwise {α : Type} {e : String × α} {l : List (String × α)}
    (h : l.Pairwise entLe) : (insEnt e l).Pairwise entLe := by
  induction l with
  | nil => simp [insEnt, List.Pairwise.nil]
  | cons f rest ih =>
    rcases List.pairwise_cons.1 h with ⟨hf, hrest⟩
    by_cases hef : keyLe e.1 f.1
    · rw [insEnt, if_pos hef]
      refine List.pairwise_cons.2 ⟨?_, h⟩
      intro z hz
      rcases List.mem_cons.1 hz with hz | hz
      · subst hz; exact hef
      · exact keyLe_trans hef (hf z hz)
    · rw [insEnt, if_neg hef]
      refine List.pairwise_cons.2 ⟨?_, ih hrest⟩
      intro z hz
      rcases mem_insEnt.1 hz with hz | hz
      · rw [hz]
        rcases keyLe_total e.1 f.1 with h1 | h1
        · exact absurd h1 hef
        · exact h1
      · exact hf z hz

theorem sortEnts_pairwise {α : Type} (l : List (String × α)) :
    (sortEnts l).Pairwise entLe := by
  induction l with
  | nil => exact List.Pairwise.nil
  | cons e rest ih => exact insEnt_pairwise ih

/-- Two key-sorted entry lists with duplicate-free keys and the same members
are equal. -/
theorem sorted_eq_of_mem_iff {α : Type} :
    ∀ (l1 l2 : List (String × α)), l1.Pairwise entLe → l2.Pairwise entLe →
    (l1.map Prod.fst).Nodup → (l2.map Prod.fst).Nodup →
    (∀ x, x ∈ l1 ↔ x ∈ l2) → l1 = l2 := by
  intro l1
  induction l1 with
  | nil =>
    intro l2 _ _ _ _ h
    cases l2 with
    | nil => rfl
    | cons y t2 => exact absurd ((h y).2 (by simp)) (by simp)
  | cons x t1 ih =>
    intro l2 s1 s2 n1 n2 h
    cases l2 with
    | nil => exact absurd ((h x).1 (by simp)) (by simp)
    | cons y t2 =>
      rcases List.pairwise_cons.1 s1 with ⟨hx1, st1⟩
      rcases List.pairwise_cons.1 s2 with ⟨hy2, st2⟩
      rcases List.nodup_cons.1 n1 with ⟨hnx, nt1⟩
      rcases List.nodup_cons.1 n2 with ⟨hny, nt2⟩
      have hxy : x = y := by
        rcases List.mem_cons.1 ((h x).1 (by simp)) with he | hxt2
        · exact he
        · rcases List.mem_cons.1 ((h y).2 (by simp)) with he | hyt1
          · exact he.symm
          · have k1 : keyLe y.1 x.1 = true := hy2 x hxt2
            have k2 : keyLe x.1 y.1 = true := hx1 y hyt1
            have : x.1 = y.1 := keyLe_antisymm k2 k1
            exact absurd (List.mem_map.2 ⟨x, hxt2, this⟩) hny
      subst hxy
      have htail : ∀ z, z ∈ t1 ↔ z ∈ t2 := by
        intro z
        constructor
        · intro hz
          rcases List.mem_cons.1 ((h z).1 (List.mem_cons_of_mem x hz)) with he | hzt
          · subst he
            exact absurd (List.mem_map.2 ⟨z, hz, rfl⟩) hnx
          · exact hzt
        · intro hz
          rcases List.mem_cons.1 ((h z).2 (List.mem_cons_of_mem x hz)) with he | hzt
          · subst he
            exact absurd (List.mem_map.2 ⟨z, hz, rfl⟩) hny
          · exact hzt
      rw [ih t2 st1 st2 nt1 nt2 htail]

theorem nodupKeys_iff {α : Type} (l : List (String × α)) :
    nodupKeys l = true ↔ (l.map Prod.fst).Nodup := by
  induction l with
  | nil => simp [nodupKeys]
  | cons kv rest ih =>
    simp only [nodupKeys, Bool.and_eq_true, Bool.not_eq_true', List.map_cons,
      List.nodup_cons, ih]
    constructor
    · rintro ⟨h1, h2⟩
      refine ⟨?_, h2⟩
      intro hmem
      rcases List.mem_map.1 hmem with ⟨kw, hkw, hk⟩
      have : rest.any (fun kw => kw.1 == kv.1) = true :=
        List.any_eq_true.2 ⟨kw, hkw, by simp [hk]⟩
      simp [this] at h1
    · rintro ⟨h1, h2⟩
      refine ⟨?_, h2⟩
      rw [Bool.eq_false_iff]
      intro hany
      rcases List.any_eq_true.1 hany with ⟨kw, hkw, hk⟩
      exact h1 (List.mem_map.2 ⟨kw, hkw, by simpa using hk⟩)

/-! ## Comma-joined concatenation (separators=(",", ":")) -/

/-- Join pieces with "," between them, as str.join does for json.dumps. -/
def joinComma : List (List Char) → List Char
  | [] => []
  | [x] => x
  | x :: y :: rest => x ++ ',' :: joinComma (y :: rest)

theorem joinComma_ascii (ls : List (List Char))
    (h : ∀ l ∈ ls, ∀ c ∈ l, c.toNat < 128) : ∀ c ∈ joinComma ls, c.toNat < 128 := by
  induction ls with
  | nil => simp [joinComma]
  | cons x rest ih =>
    cases rest with
    | nil =>
      intro c hc
      exact h x (by simp) c hc
    | cons y t =>
      intro c hc
      simp only [joinComma] at hc
      rcases List.mem_append.1 hc with hc | hc
      · exact h x (by simp) c hc
      · rcases List.mem_cons.1 hc with hc | hc
        · simp [hc]
        · exact ih (fun l hl => h l (List.mem_cons_of_mem x hl)) c hc

/-! ## JSON values -/

/-- A JSON-serializable Python value: None, bool, int, str, list, dict.
Dicts are in insertion order, as in Python. -/
inductive JValue where
  | null
  | bool (b : Bool)
  | int (n : Int)
  | str (s : String)
  | arr (xs : List JValue)
  | obj (fs : List (String × JValue))

/-- Left brace character (spelled by code to keep it out of string literals). -/
def lbraceC : Char := Char.ofNat 123

/-- Right brace character. -/
def rbraceC : Char := Char.ofNat 125

/-- Rendering of one serialized object entry: "key":value. -/
def renderEnt (e : String × List Char) : List Char := encStr e.1 ++ ':' :: e.2

/-- The serialization of None. -/
def litNull : List Char := ['n', 'u', 'l', 'l']

/-- The serialization of True. -/
def litTrue : List Char := ['t', 'r', 'u', 'e']

/-- The serialization of False. -/
def litFalse : List Char := ['f', 'a', 'l', 's', 'e']

mutual
/-- Canonical serialization: json.dumps(v, sort_keys=True,
separators=(",", ":")) with the default ensure_ascii=True, as the character
list of the output (one byte per character, since everything is ASCII). -/
def canonicalize : JValue → List Char
  | .null => litNull
  | .bool b => if b then litTrue else litFalse
  | .int n => intStr n
  | .str s => encStr s
  | .arr xs => '[' :: (canonElems xs ++ [']'])
  | .obj fs =>
    lbraceC :: (joinComma ((sortEnts (canonEntries fs)).map renderEnt) ++ [rbraceC])

/-- Comma-joined serializations of array elements. -/
def canonElems : List JValue → List Char
  | [] => []
  | [x] => canonicalize x
  | x :: y :: rest => canonicalize x ++ ',' :: canonElems (y :: rest)

/-- Entries with serialized values (keys still raw, for sorting). -/
def canonEntries : List (String × JValue) → List (String × List Char)
  | [] => []
  | (k, v) :: rest => (k, canonicalize v) :: canonEntries rest
end

theorem canonEntries_eq (fs : List (String × JValue)) :
    canonEntries fs = fs.map (fun kv => (kv.1, canonicalize kv.2)) := by
  induction fs with
  | nil => rfl
  | cons kv rest ih =>
    obtain ⟨k, v⟩ := kv
    simp [canonEntries, ih]

theorem canonElems_eq (xs : List JValue) :
    canonElems xs = joinComma (xs.map canonicalize) := by
  induction xs with
  | nil => rfl
  | cons x rest ih =>
    cases rest with
    | nil => rfl
    | cons y t =>
      simp only [canonElems, List.map_cons, joinComma]
      rw [ih]
      simp [joinComma]

mutual
/-- One-sided containment of JSON values: every key of the left object is
bound in the right object to a value containing the corresponding left
value, recursively; scalars and array spines must match exactly.  Together
with its converse (see `JEquiv`) and duplicate-free keys this says the two
values have identical key/value sets at every nesting level. -/
def jsub : JValue → JValue → Bool
  | .null, .null => true
  | .bool a, .bool b => a == b
  | .int a, .int b => a == b
  | .str a, .str b => a == b
  | .arr xs, .arr ys => jsubElems xs ys
  | .obj fs, .obj gs => jsubEntries fs gs
  | _, _ => false

def jsubElems : List JValue → List JValue → Bool
  | [], [] => true
  | x :: xs, y :: ys => jsub x y && jsubElems xs ys
  | _, _ => false

def jsubEntries : List (String × JValue) → List (String × JValue) → Bool
  | [], _ => true
  | (k, v) :: rest, gs =>
    (match lookupD gs k with
     | some w => jsub v w
     | none => false) && jsubEntries rest gs
end

/-- Two JSON values with identical key/value sets at every nesting level
(key order in objects irrelevant, array order significant). -/
def JEquiv (a b : JValue) : Prop := jsub a b = true ∧ jsub b a = true

mutual
/-- Well-formedness: every object has duplicate-free keys (automatic for a
value that came from a real Python dict). -/
def wfj : JValue → Bool
  | .null => true
  | .bool _ => true
  | .int _ => true
  | .str _ => true
  | .arr xs => wfjElems xs
  | .obj fs => nodupKeys fs && wfjEntries fs

def wfjElems : List JValue → Bool
  | [] => true
  | x :: rest => wfj x && wfjElems rest

def wfjEntries : List (String × JValue) → Bool
  | [] => true
  | kv :: rest => wfj kv.2 && wfjEntries rest
end

example :
    canonicalize (.obj [("status", .str "completed"), ("summary", .str "x"),
      ("wordCount", .int 1)]) =
    "\x7b\"status\":\"completed\",\"summary\":\"x\",\"wordCount\":1\x7d".data := by
  decide

example :
    canonicalize (.obj [("wordCount", .int 1), ("status", .str "completed"),
      ("summary", .str "x")]) =
    canonicalize (.obj [("status", .str "completed"), ("summary", .str "x"),
      ("wordCount", .int 1)]) := by
  decide

/-! ## Facts about jsub, wfj and canonicalize -/

theorem wfjEntries_mem {fs : List (String × JValue)} (h : wfjEntries fs = true)
    {kv : String × JValue} (hm : kv ∈ fs) : wfj kv.2 = true := by
  induction fs with
  | nil => cases hm
  | cons e rest ih =>
    simp only [wfjEntries, Bool.and_eq_true] at h
    rcases List.mem_cons.1 hm with he | hm2
    · rw [he]; exact h.1
    · exact ih h.2 hm2

theorem wfjElems_mem {xs : List JValue} (h : wfjElems xs = true)
    {x : JValue} (hm : x ∈ xs) : wfj x = true := by
  induction xs with
  | nil => cases hm
  | cons e rest ih =>
    simp only [wfjElems, Bool.and_eq_true] at h
    rcases List.mem_cons.1 hm with he | hm2
    · rw [he]; exact h.1
    · exact ih h.2 hm2

theorem sizeOf_mem_elems {xs : List JValue} {x : JValue} (h : x ∈ xs) :
    sizeOf x < sizeOf (JValue.arr xs) := by
  have h1 := List.sizeOf_lt_of_mem h
  simp only [JValue.arr.sizeOf_spec]
  omega

theorem sizeOf_mem_entries {fs : List (String × JValue)} {kv : String × JValue}
    (h : kv ∈ fs) : sizeOf kv.2 < sizeOf (JValue.obj fs) := by
  have h1 := List.sizeOf_lt_of_mem h
  have h2 : sizeOf kv.2 < sizeOf kv := by
    obtain ⟨k, v⟩ := kv
    simp only [Prod.mk.sizeOf_spec]
    omega
  simp only [JValue.obj.sizeOf_spec]
  omega

theorem jsubEntries_iff {fs gs : List (String × JValue)} :
    jsubEntries fs gs = true ↔
    ∀ kv ∈ fs, ∃ w, lookupD gs kv.1 = some w ∧ jsub kv.2 w = true := by
  induction fs with
  | nil => simp [jsubEntries]
  | cons kv rest ih =>
    obtain ⟨k, v⟩ := kv
    cases hl : lookupD gs k with
    | none => simp [jsubEntries, hl, List.forall_mem_cons, ih]
    | some w => simp [jsubEntries, hl, List.forall_mem_cons, ih]

theorem lookupD_mem {α : Type} {l : List (String × α)} {k : String} {v : α}
    (h : lookupD l k = some v) : (k, v) ∈ l := by
  induction l with
  | nil => simp [lookupD] at h
  | cons kv rest ih =>
    simp only [lookupD] at h
    by_cases he : kv.1 = k
    · rw [if_pos he] at h
      injection h with h2
      have : kv = (k, v) := by
        obtain ⟨k1, v1⟩ := kv
        simp only at he h2
        simp [he, h2]
      rw [← this]
      exact List.mem_cons_self kv rest
    · rw [if_neg he] at h
      exact List.mem_cons_of_mem _ (ih h)

theorem mem_lookupD {α : Type} {l : List (String × α)}
    (hn : (l.map Prod.fst).Nodup) {k : String} {v : α} (h : (k, v) ∈ l) :
    lookupD l k = some v := by
  induction l with
  | nil => cases h
  | cons kv rest ih =>
    rw [List.map_cons, List.nodup_cons] at hn
    obtain ⟨h1, h2⟩ := hn
    rcases List.mem_cons.1 h with he | hm
    · rw [← he]
      simp [lookupD]
    · have hk : kv.1 ≠ k := by
        intro hc
        exact h1 (List.mem_map.2 ⟨(k, v), hm, hc.symm⟩)
      simp only [lookupD, if_neg hk]
      exact ih h2 hm

/-- Heart of the canonicalization-invariance claim: values with identical
key/value sets at every nesting level (and duplicate-free keys) have equal
canonical serializations.  Strong induction on total size. -/
theorem canon_eq_aux : ∀ n a b, sizeOf a + sizeOf b ≤ n → jsub a b = true →
    jsub b a = true → wfj a = true → wfj b = true →
    canonicalize a = canonicalize b := by
  intro n
  induction n with
  | zero =>
    intro a b hs _ _ _ _
    exfalso
    have : 0 < sizeOf a := by cases a <;> simp_arith
    omega
  | succ n ih =>
    intro a b hsize h1 h2 hwa hwb
    have harr : ∀ xs ys, (∀ x ∈ xs, ∀ y ∈ ys, sizeOf x + sizeOf y ≤ n) →
        jsubElems xs ys = true → jsubElems ys xs = true →
        wfjElems xs = true → wfjElems ys = true →
        xs.map canonicalize = ys.map canonicalize := by
      intro xs
      induction xs with
      | nil =>
        intro ys _ hxy _ _ _
        cases ys with
        | nil => rfl
        | cons y t => simp [jsubElems] at hxy
      | cons x t ihx =>
        intro ys hsz hxy hyx hwx hwy
        cases ys with
        | nil => simp [jsubElems] at hxy
        | cons y t2 =>
          simp only [jsubElems, Bool.and_eq_true] at hxy hyx
          simp only [wfjElems, Bool.and_eq_true] at hwx hwy
          have hhead : canonicalize x = canonicalize y :=
            ih x y (hsz x (by simp) y (by simp)) hxy.1 hyx.1 hwx.1 hwy.1
          have htail : t.map canonicalize = t2.map canonicalize :=
            ihx t2 (fun z hz w hw => hsz z (by simp [hz]) w (by simp [hw]))
              hxy.2 hyx.2 hwx.2 hwy.2
          simp [hhead, htail]
    have hmemT : ∀ fs gs, (∀ kv ∈ fs, ∀ kw ∈ gs, sizeOf kv.2 + sizeOf kw.2 ≤ n) →
        (fs.map Prod.fst).Nodup → jsubEntries fs gs = true →
        jsubEntries gs fs = true → wfjEntries fs = true → wfjEntries gs = true →
        ∀ x ∈ canonEntries fs, x ∈ canonEntries gs := by
      intro fs gs hsz hnf hfg hgf hwf hwg x hx
      rw [canonEntries_eq] at hx ⊢
      rcases List.mem_map.1 hx with ⟨kv, hkv, rfl⟩
      rcases jsubEntries_iff.1 hfg kv hkv with ⟨w, hlw, hjvw⟩
      have hwmem : (kv.1, w) ∈ gs := lookupD_mem hlw
      rcases jsubEntries_iff.1 hgf (kv.1, w) hwmem with ⟨v2, hlv2, hjwv2⟩
      have hself : lookupD fs kv.1 = some kv.2 := by
        apply mem_lookupD hnf
        simpa using hkv
      rw [hself] at hlv2
      injection hlv2 with hv2
      rw [← hv2] at hjwv2
      have hcan : canonicalize kv.2 = canonicalize w :=
        ih kv.2 w (hsz kv hkv (kv.1, w) hwmem) hjvw hjwv2
          (wfjEntries_mem hwf hkv) (wfjEntries_mem hwg hwmem)
      exact List.mem_map.2 ⟨(kv.1, w), hwmem, by simp [hcan]⟩
    cases a with
    | null =>
      cases b <;> try (simp [jsub] at h1; done)
      rfl
    | bool ab =>
      cases b <;> try (simp [jsub] at h1; done)
      rename_i bb
      have h : ab = bb := by simpa [jsub] using h1
      rw [h]
    | int an =>
      cases b <;> try (simp [jsub] at h1; done)
      rename_i bn
      have h : an = bn := by simpa [jsub] using h1
      rw [h]
    | str sa =>
      cases b <;> try (simp [jsub] at h1; done)
      rename_i sb
      have h : sa = sb := by simpa [jsub] using h1
      rw [h]
    | arr xs =>
      cases b <;> try (simp [jsub] at h1; done)
      rename_i ys
      have hxy : jsubElems xs ys = true := by simpa [jsub] using h1
      have hyx : jsubElems ys xs = true := by simpa [jsub] using h2
      have hwx : wfjElems xs = true := by simpa [wfj] using hwa
      have hwy : wfjElems ys = true := by simpa [wfj] using hwb
      have hsz : ∀ x ∈ xs, ∀ y ∈ ys, sizeOf x + sizeOf y ≤ n := by
        intro x hx y hy
        have hx1 := sizeOf_mem_elems hx
        have hy1 := sizeOf_mem_elems hy
        omega
      have hmap := harr xs ys hsz hxy hyx hwx hwy
      simp only [canonicalize, canonElems_eq, hmap]
    | obj fs =>
      cases b <;> try (simp [jsub] at h1; done)
      rename_i gs
      have hfg : jsubEntries fs gs = true := by simpa [jsub] using h1
      have hgf : jsubEntries gs fs = true := by simpa [jsub] using h2
      have hwfa : nodupKeys fs = true ∧ wfjEntries fs = true := by
        simpa [wfj, Bool.and_eq_true] using hwa
      have hwfb : nodupKeys gs = true ∧ wfjEntries gs = true := by
        simpa [wfj, Bool.and_eq_true] using hwb
      have hnf : (fs.map Prod.fst).Nodup := (nodupKeys_iff fs).1 hwfa.1
      have hng : (gs.map Prod.fst).Nodup := (nodupKeys_iff gs).1 hwfb.1
      have hsz : ∀ kv ∈ fs, ∀ kw ∈ gs, sizeOf kv.2 + sizeOf kw.2 ≤ n := by
        intro kv hkv kw hkw
        have h1s := sizeOf_mem_entries hkv
        have h2s := sizeOf_mem_entries hkw
        omega
      have hszR : ∀ kv ∈ gs, ∀ kw ∈ fs, sizeOf kv.2 + sizeOf kw.2 ≤ n := by
        intro kv hkv kw hkw
        have := hsz kw hkw kv hkv
        omega
      have hmem : ∀ x, x ∈ sortEnts (canonEntries fs) ↔ x ∈ sortEnts (canonEntries gs) := by
        intro x
        rw [mem_sortEnts, mem_sortEnts]
        exact ⟨fun hx => hmemT fs gs hsz hnf hfg hgf hwfa.2 hwfb.2 x hx,
               fun hx => hmemT gs fs hszR hng hgf hfg hwfb.2 hwfa.2 x hx⟩
      have hkeysf : (canonEntries fs).map Prod.fst = fs.map Prod.fst := by
        rw [canonEntries_eq, List.map_map]
        rfl
      have hkeysg : (canonEntries gs).map Prod.fst = gs.map Prod.fst := by
        rw [canonEntries_eq, List.map_map]
        rfl
      have hnodup1 : ((sortEnts (canonEntries fs)).map Prod.fst).Nodup := by
        have hperm := (sortEnts_perm (canonEntries fs)).map Prod.fst
        rw [hperm.nodup_iff, hkeysf]
        exact hnf
      have hnodup2 : ((sortEnts (canonEntries gs)).map Prod.fst).Nodup := by
        have hperm := (sortEnts_perm (canonEntries gs)).map Prod.fst
        rw [hperm.nodup_iff, hkeysg]
        exact hng
      have hs : sortEnts (canonEntries fs) = sortEnts (canonEntries gs) :=
        sorted_eq_of_mem_iff _ _ (sortEnts_pairwise _) (sortEnts_pairwise _)
          hnodup1 hnodup2 hmem
      simp only [canonicalize, hs]

/-! ## Canonicalization is pure ASCII (ensure_ascii=True) -/

theorem canon_ascii_aux : ∀ n v, sizeOf v ≤ n → ∀ c ∈ canonicalize v, c.toNat < 128 := by
  intro n
  induction n with
  | zero =>
    intro v hs
    exfalso
    have : 0 < sizeOf v := by cases v <;> simp_arith
    omega
  | succ n ih =>
    intro v hsize c hc
    cases v with
    | null =>
      simp only [canonicalize, litNull] at hc
      fin_cases hc <;> decide
    | bool b =>
      cases b <;> simp only [canonicalize, litTrue, litFalse] at hc <;>
        (fin_cases hc <;> decide)
    | int m => exact intStr_ascii m c hc
    | str s => exact encStr_ascii s c hc
    | arr xs =>
      simp only [canonicalize] at hc
      rcases List.mem_cons.1 hc with he | hc2
      · rw [he]; decide
      rcases List.mem_append.1 hc2 with hc3 | hc3
      · rw [canonElems_eq] at hc3
        refine joinComma_ascii _ ?_ c hc3
        intro l hl d hd
        rcases List.mem_map.1 hl with ⟨x, hx, rfl⟩
        have hb : sizeOf x ≤ n := by
          have := sizeOf_mem_elems hx
          omega
        exact ih x hb d hd
      · rcases List.mem_cons.1 hc3 with he | he
        · rw [he]; decide
        · cases he
    | obj fs =>
      simp only [canonicalize] at hc
      rcases List.mem_cons.1 hc with he | hc2
      · rw [he]; decide
      rcases List.mem_append.1 hc2 with hc3 | hc3
      · refine joinComma_ascii _ ?_ c hc3
        intro l hl d hd
        rcases List.mem_map.1 hl with ⟨e, he, rfl⟩
        have he2 : e ∈ canonEntries fs := mem_sortEnts.1 he
        rw [canonEntries_eq] at he2
        rcases List.mem_map.1 he2 with ⟨kv, hkv, rfl⟩
        simp only [renderEnt] at hd
        rcases List.mem_append.1 hd with hd2 | hd2
        · exact encStr_ascii _ d hd2
        · rcases List.mem_cons.1 hd2 with hd3 | hd3
          · rw [hd3]; decide
          · have hb : sizeOf kv.2 ≤ n := by
              have := sizeOf_mem_entries hkv
              omega
            exact ih kv.2 hb d hd3
      · rcases List.mem_cons.1 hc3 with he | he
        · rw [he]; decide
        · cases he

/-- Every character of a canonical serialization is ASCII. -/
theorem canonicalize_ascii (v : JValue) : ∀ c ∈ canonicalize v, c.toNat < 128 :=
  canon_ascii_aux (sizeOf v) v le_rfl

/-! ## A raw-UTF-8 (ensure_ascii=False) serializer, for comparison

Modelled from the spec: the claim about ensure_ascii compares the signer
against a third-party verifier that serializes strings as raw UTF-8 bytes
(json.dumps with ensure_ascii=False); only the string escaping differs. -/

/-- Escape of one character when non-ASCII characters are emitted raw. -/
def escCharRaw (c : Char) : List Char :=
  if c = '"' then ['\\', '"']
  else if c = '\\' then ['\\', '\\']
  else if c.toNat = 8 then ['\\', 'b']
  else if c.toNat = 9 then ['\\', 't']
  else if c.toNat = 10 then ['\\', 'n']
  else if c.toNat = 12 then ['\\', 'f']
  else if c.toNat = 13 then ['\\', 'r']
  else if c.toNat < 32 then uEsc c.toNat
  else [c]

def escListRaw : List Char → List Char
  | [] => []
  | c :: rest => escCharRaw c ++ escListRaw rest

def encStrRaw (s : String) : List Char := '"' :: (escListRaw s.data ++ ['"'])

mutual
/-- Canonical serialization of the third-party verifier that emits raw
UTF-8: identical to `canonicalize` except for string escaping. -/
def canonicalizeRawUtf8 : JValue → List Char
  | .null => litNull
  | .bool b => if b then litTrue else litFalse
  | .int n => intStr n
  | .str s => encStrRaw s
  | .arr xs => '[' :: (canonElemsRaw xs ++ [']'])
  | .obj fs =>
    lbraceC :: (joinComma ((sortEnts (canonEntriesRaw fs)).map renderEnt) ++ [rbraceC])

def canonElemsRaw : List JValue → List Char
  | [] => []
  | [x] => canonicalizeRawUtf8 x
  | x :: y :: rest => canonicalizeRawUtf8 x ++ ',' :: canonElemsRaw (y :: rest)

def canonEntriesRaw : List (String × JValue) → List (String × List Char)
  | [] => []
  | (k, v) :: rest => (k, canonicalizeRawUtf8 v) :: canonEntriesRaw rest
end

/-! ## The signing service (app/signing.py) -/

/-- A JSON dict, the payload type of every record and response. -/
abbrev Dict := List (String × JValue)

/-- The dict comprehension of sign_response:
data_to_sign = \x7bk: v for k, v in response_data.items()
               if k not in ("signature", "public_key")\x7d -/
def stripSigFields (d : Dict) : Dict :=
  d.filter fun kv => !(kv.1 == "signature" || kv.1 == "public_key")

/-- self.public_key_hex as a JSON value (None becomes null). -/
def pubKeyJ : Option String → JValue
  | none => .null
  | some s => .str s

/-- SigningService.sign_response.  The coincurve signing call is the
parameter signTry (an Except, since the try block absorbs any exception);
sigHex renders a signature as the hex string signature_bytes.hex().
Returns the response with signature and public_key added, or the unchanged
response when no key is present or signing raised. -/
def sign_response {Key Sig : Type} (hashF : List Char → Nat)
    (signTry : Key → Nat → Except String Sig) (sigHex : Sig → String)
    (private_key : Option Key) (public_key_hex : Option String)
    (response_data : Dict) : Dict :=
  match private_key with
  | none => response_data
  | some k =>
    match signTry k (hashF (canonicalize (.obj (stripSigFields response_data)))) with
    | .error _ => response_data
    | .ok s =>
      setD (setD response_data "signature" (.str (sigHex s)))
        "public_key" (pubKeyJ public_key_hex)

/-- SigningService.initialize.  Inputs are the configuration
(DEBUG_SIGNING, ENVIRONMENT), the mock key that secrets.token_hex would
produce, and the three fallible collaborator calls (ROFL generate_key,
_derive_public_key, set_metadata).  The result is the final
(private_key_hex, public_key_hex) state, or an uncaught exception: in the
debug branch _derive_public_key runs outside the try block, so its failure
propagates; in the production branch every failure is caught, leaving
whatever partial state had already been assigned. -/
def initSigning {Key : Type} (debug_signing : Bool) (environment : String)
    (mock_key : Key) (generate_key : Except String Key)
    (derive_public_key : Key → Except String String)
    (set_metadata : Except String Unit) :
    Except String (Option Key × Option String) :=
  if debug_signing then
    match derive_public_key mock_key with
    | .error e => .error e
    | .ok pub => .ok (some mock_key, some pub)
  else if environment ≠ "production" then
    .ok (none, none)
  else
    match generate_key with
    | .error _ => .ok (none, none)
    | .ok k =>
      match derive_public_key k with
      | .error _ => .ok (some k, none)
      | .ok pub =>
        match set_metadata with
        | .error _ => .ok (some k, some pub)
        | .ok _ => .ok (some k, some pub)

/-- The verification procedure of app/test_signing.py: recompute the
canonical digest of the envelope with signature/public_key removed, recover
the public key from the recoverable signature (coincurve
PublicKey.from_signature_and_message, a parameter here), and compare its
compressed encoding with the envelope's public_key field. -/
def verify {Sig PubKey : Type} (hashF : List Char → Nat)
    (parseSig : String → Option Sig) (recover : Sig → Nat → PubKey)
    (pubHex : PubKey → String) (e : Dict) : Bool :=
  match lookupD e "signature", lookupD e "public_key" with
  | some (.str sigStr), some (.str pkStr) =>
    match parseSig sigStr with
    | some s =>
      pubHex (recover s (hashF (canonicalize (.obj (stripSigFields e))))) == pkStr
    | none => false
  | _, _ => false

/-! ## The HTTP handlers (app/main.py) -/

def MIN_DOCUMENT_LENGTH : Nat := 50

def MAX_DOCUMENT_LENGTH : Nat := 400000

/-- The record stored at job creation: jobs[job_id] = \x7b"status": "processing"\x7d. -/
def processingRecord : Dict := [("status", JValue.str "processing")]

/-- The in-memory job table. -/
abbrev Store := List (String × Dict)

/-- The job-creation line of summarize_doc. -/
def createJob (jobs : Store) (job_id : String) : Store :=
  setD jobs job_id processingRecord

/-- The immediate response of summarize_doc. -/
def summarizeResponse (job_id provider : String) : Dict :=
  [("job_id", .str job_id), ("status", .str "processing"),
   ("status_url", .str ("/summarize-doc/" ++ job_id)), ("provider", .str provider)]

/-- POST /summarize-doc: validate length, else create the job and answer;
the job identifier (uuid4) and provider are parameters.  Returns the HTTP
outcome together with the job table afterwards. -/
def summarize_doc (document : List Char) (job_id provider : String)
    (jobs : Store) : Except Nat Dict × Store :=
  if document.length < MIN_DOCUMENT_LENGTH then (.error 400, jobs)
  else if document.length > MAX_DOCUMENT_LENGTH then (.error 400, jobs)
  else (.ok (summarizeResponse job_id provider), createJob jobs job_id)

/-- GET /summarize-doc/\x7bjob_id\x7d: 404 when unknown, otherwise the stored
record, returned as-is. -/
def get_summary_status (jobs : Store) (job_id : String) : Except Nat Dict :=
  match lookupD jobs job_id with
  | none => .error 404
  | some r => .ok r

/-! ## Word statistics and the background task (app/main.py) -/

/-- The code points Python str.split() treats as whitespace outside the
contiguous U+2000-200A block: the ASCII whitespace characters, the
separators U+001C-001F, U+0085 next line, U+00A0 no-break space, U+1680
ogham space mark, U+2028/U+2029 line and paragraph separators, U+202F
narrow no-break space, U+205F medium mathematical space and U+3000
ideographic space (CPython's Py_UNICODE_ISSPACE table). -/
def pyWhitespaceCodes : List Nat :=
  [9, 10, 11, 12, 13, 28, 29, 30, 31, 32, 133, 160, 5760,
   8232, 8233, 8239, 8287, 12288]

/-- Python str.split() whitespace: all Unicode whitespace, per
Py_UNICODE_ISSPACE. -/
def pyIsSpace (c : Char) : Bool :=
  pyWhitespaceCodes.contains c.toNat || (8192 ≤ c.toNat && c.toNat ≤ 8202)

/-- Python document.split(): maximal runs of non-whitespace. -/
def splitWsAux : List Char → List Char → List (List Char)
  | [], acc => if acc.isEmpty then [] else [acc.reverse]
  | c :: rest, acc =>
    if pyIsSpace c then
      if acc.isEmpty then splitWsAux rest [] else acc.reverse :: splitWsAux rest []
    else splitWsAux rest (c :: acc)

def splitWs (doc : List Char) : List (List Char) := splitWsAux doc []

/-- word_count = len(document.split()). -/
def word_count (doc : List Char) : Nat := (splitWs doc).length

/-- reading_time = max(1, word_count // 200). -/
def reading_time (doc : List Char) : Nat := max 1 (word_count doc / 200)

/-- The f-string "..minute.." rendering stored in the record. -/
def minuteStr (rt : Nat) : String :=
  String.mk (natDigs rt) ++ " minute" ++ (if rt != 1 then "s" else "")

/-- The completed record written by process_summary_with_ollama in main.py
(note: a formatted reading_time string and no timestamp). -/
def completedRecord (summary : String) (doc : List Char) : Dict :=
  [("status", .str "completed"), ("summary", .str summary),
   ("word_count", .int (word_count doc : Int)),
   ("reading_time", .str (minuteStr (reading_time doc)))]

/-- The failed record written by the except branch (error message and
error_details with the formatted traceback). -/
def failedRecord (err err_details : String) : Dict :=
  [("status", .str "failed"), ("error", .str err),
   ("error_details", .str err_details)]

/-- The terminal record determined by the outcome of the Ollama call. -/
def terminalRecord (chat : Except (String × String) String) (doc : List Char) : Dict :=
  match chat with
  | .ok summary => completedRecord summary doc
  | .error e => failedRecord e.1 e.2

/-- process_summary_with_ollama (main.py): one terminal write guarded by
try/except; the chat call outcome is the parameter. -/
def process_summary_with_ollama (job_id : String) (document : List Char)
    (chat : Except (String × String) String) (jobs : Store) : Store :=
  match chat with
  | .ok summary => setD jobs job_id (completedRecord summary document)
  | .error e => setD jobs job_id (failedRecord e.1 e.2)

/-- The completed record of app/ollama_provider.py (same fields plus the
finalize timestamp int(time.time())). -/
def completedRecordP (summary : String) (doc : List Char) (now : Int) : Dict :=
  [("status", .str "completed"), ("summary", .str summary),
   ("word_count", .int (word_count doc : Int)),
   ("reading_time", .str (minuteStr (reading_time doc))),
   ("timestamp", .int now)]

/-- The failed record of app/ollama_provider.py (with timestamp). -/
def failedRecordP (err err_details : String) (now : Int) : Dict :=
  [("status", .str "failed"), ("error", .str err),
   ("error_details", .str err_details), ("timestamp", .int now)]

/-- process_summary of app/ollama_provider.py. -/
def provider_process_summary (job_id : String) (document : List Char)
    (chat : Except (String × String) String) (now : Int) (jobs : Store) : Store :=
  match chat with
  | .ok summary => setD jobs job_id (completedRecordP summary document now)
  | .error e => setD jobs job_id (failedRecordP e.1 e.2 now)

/-! ## Job lifecycle: traces of store operations

A system execution is a sequence of store writes: each POST handler call
performs one create, and each scheduled background task performs one
terminal write (process_summary_with_ollama).  The well-formedness
predicate `shapeOKb` states what the code guarantees for every job
identifier: at most one create (fresh uuid4 identifiers), followed by at
most one finalize (exactly one background task is scheduled per accepted
submission, and its try/except writes exactly once). -/

/-- One store write. -/
inductive JobOp where
  | create (id : String)
  | finalize (id : String) (chat : Except (String × String) String) (doc : List Char)

/-- The job identifier an operation writes. -/
def opId : JobOp → String
  | .create id => id
  | .finalize id _ _ => id

/-- Execute one write against the store. -/
def applyOp (store : Store) : JobOp → Store
  | .create id => createJob store id
  | .finalize id chat doc => process_summary_with_ollama id doc chat store

/-- Execute a trace left to right. -/
def runOps (store : Store) : List JobOp → Store
  | [] => store
  | op :: rest => runOps (applyOp store op) rest

/-- The operations of a trace that touch one identifier. -/
def opsFor (id : String) (tr : List JobOp) : List JobOp :=
  tr.filter fun op => opId op == id

/-- The record an operation writes. -/
def recOf : JobOp → Dict
  | .create _ => processingRecord
  | .finalize _ chat doc => terminalRecord chat doc

/-- Per-identifier view of a trace: the record after replaying only the
writes for that identifier. -/
def lastRecord (init : Option Dict) : List JobOp → Option Dict
  | [] => init
  | op :: rest => lastRecord (some (recOf op)) rest

/-- The shape the code guarantees for the writes of one identifier:
nothing, just a create, or a create followed by one finalize. -/
def goodShape : List JobOp → Bool
  | [] => true
  | [.create _] => true
  | [.create _, .finalize _ _ _] => true
  | _ => false

/-- Every identifier written in the trace has a well-shaped write sequence. -/
def shapeOKb (tr : List JobOp) : Bool :=
  (tr.map opId).all fun id => goodShape (opsFor id tr)

/-- status of a record is "completed". -/
def isCompleted (r : Dict) : Bool :=
  match lookupD r "status" with
  | some (.str s) => s == "completed"
  | _ => false

/-- status of a record is "failed". -/
def isFailed (r : Dict) : Bool :=
  match lookupD r "status" with
  | some (.str s) => s == "failed"
  | _ => false

/-- A lookup result holding a terminal record. -/
def isTerminalAt (r : Option Dict) : Bool :=
  match r with
  | some d => isCompleted d || isFailed d
  | none => false

theorem lookup_applyOp_self (store : Store) (op : JobOp) (id : String)
    (h : opId op = id) : lookupD (applyOp store op) id = some (recOf op) := by
  cases op with
  | create cid =>
    simp only [opId] at h
    simp only [applyOp, createJob, recOf, ← h]
    exact lookupD_setD_self store cid processingRecord
  | finalize fid chat doc =>
    simp only [opId] at h
    cases chat with
    | ok s =>
      simp only [applyOp, process_summary_with_ollama, recOf, terminalRecord, ← h]
      exact lookupD_setD_self store fid _
    | error e =>
      simp only [applyOp, process_summary_with_ollama, recOf, terminalRecord, ← h]
      exact lookupD_setD_self store fid _

theorem lookup_applyOp_ne (store : Store) (op : JobOp) (id : String)
    (h : opId op ≠ id) : lookupD (applyOp store op) id = lookupD store id := by
  cases op with
  | create cid =>
    simp only [opId] at h
    exact lookupD_setD_ne store cid id processingRecord h
  | finalize fid chat doc =>
    simp only [opId] at h
    cases chat with
    | ok s => exact lookupD_setD_ne store fid id _ h
    | error e => exact lookupD_setD_ne store fid id _ h

theorem runOps_lookup (tr : List JobOp) : ∀ (store : Store) (id : String),
    lookupD (runOps store tr) id = lastRecord (lookupD store id) (opsFor id tr) := by
  induction tr with
  | nil => intro store id; rfl
  | cons op rest ih =>
    intro store id
    by_cases h : opId op = id
    · have hf : opsFor id (op :: rest) = op :: opsFor id rest := by
        simp [opsFor, List.filter_cons, h]
      rw [hf]
      simp only [runOps, lastRecord]
      rw [ih (applyOp store op) id, lookup_applyOp_self store op id h]
    · have hf : opsFor id (op :: rest) = opsFor id rest := by
        simp [opsFor, List.filter_cons, h]
      rw [hf]
      simp only [runOps]
      rw [ih (applyOp store op) id, lookup_applyOp_ne store op id h]

theorem filter_prefix {α : Type} (p : α → Bool) {l1 l2 : List α}
    (h : l1 <+: l2) : l1.filter p <+: l2.filter p := by
  obtain ⟨t, rfl⟩ := h
  exact ⟨t.filter p, by rw [← List.filter_append]⟩

theorem take_prefix_take {α : Type} {l : List α} {i j : Nat} (h : i ≤ j) :
    l.take i <+: l.take j := by
  have he : (l.take j).take i = l.take i := by
    rw [List.take_take, Nat.min_eq_left h]
  rw [← he]
  exact List.take_prefix i (l.take j)

theorem prefix_antisymm {α : Type} {l1 l2 : List α} (h1 : l1 <+: l2)
    (h2 : l2 <+: l1) : l1 = l2 := by
  obtain ⟨t, rfl⟩ := h1
  have := h2.length_le
  simp at this
  simp [this]

theorem prefix_single {α : Type} {l : List α} {a : α} (h : l <+: [a]) :
    l = [] ∨ l = [a] := by
  obtain ⟨t, ht⟩ := h
  cases l with
  | nil => left; rfl
  | cons x l1 =>
    cases l1 with
    | nil =>
      right
      simp at ht
      simp [ht.1]
    | cons y l2 =>
      exfalso
      have hlen := congrArg List.length ht
      simp only [List.length_append, List.length_cons, List.length_nil] at hlen
      omega

theorem prefix_pair {α : Type} {l : List α} {a b : α} (h : l <+: [a, b]) :
    l = [] ∨ l = [a] ∨ l = [a, b] := by
  obtain ⟨t, ht⟩ := h
  cases l with
  | nil => left; rfl
  | cons x l1 =>
    cases l1 with
    | nil =>
      right; left
      simp at ht
      simp [ht.1]
    | cons y l2 =>
      cases l2 with
      | nil =>
        right; right
        simp at ht
        simp [ht.1, ht.2.1]
      | cons z l3 =>
        exfalso
        have hlen := congrArg List.length ht
        simp only [List.length_append, List.length_cons, List.length_nil] at hlen
        omega

theorem shape_any (tr : List JobOp) (h : shapeOKb tr = true) (id : String) :
    goodShape (opsFor id tr) = true := by
  by_cases hm : id ∈ tr.map opId
  · exact List.all_eq_true.1 h id hm
  · have : opsFor id tr = [] := by
      apply List.filter_eq_nil_iff.2
      intro op hop
      simp only [beq_iff_eq]
      intro hc
      exact hm (List.mem_map.2 ⟨op, hop, hc⟩)
    rw [this]
    rfl

theorem goodShape_cases {l : List JobOp} (h : goodShape l = true) :
    l = [] ∨ (∃ i1, l = [JobOp.create i1]) ∨
    (∃ i1 i2 c d, l = [JobOp.create i1, JobOp.finalize i2 c d]) := by
  match l with
  | [] => left; rfl
  | [JobOp.create i1] => right; left; exact ⟨i1, rfl⟩
  | [JobOp.create i1, JobOp.finalize i2 c d] => right; right; exact ⟨i1, i2, c, d, rfl⟩
  | [JobOp.finalize i1 c d] => simp [goodShape] at h
  | [JobOp.create i1, JobOp.create i2] => simp [goodShape] at h
  | [JobOp.finalize i1 c d, op] => simp [goodShape] at h
  | op1 :: op2 :: op3 :: rest => simp [goodShape] at h

theorem terminal_persist (tr : List JobOp) (h : shapeOKb tr = true) (id : String)
    {i j : Nat} (hij : i ≤ j)
    (ht : isTerminalAt (lookupD (runOps [] (tr.take i)) id) = true) :
    lookupD (runOps [] (tr.take j)) id = lookupD (runOps [] (tr.take i)) id := by
  have hF := shape_any tr h id
  have hFi : opsFor id (tr.take i) <+: opsFor id tr :=
    filter_prefix _ (List.take_prefix i tr)
  have hFj : opsFor id (tr.take j) <+: opsFor id tr :=
    filter_prefix _ (List.take_prefix j tr)
  have hFij : opsFor id (tr.take i) <+: opsFor id (tr.take j) :=
    filter_prefix _ (take_prefix_take hij)
  rw [runOps_lookup] at ht ⊢
  rw [runOps_lookup]
  rcases goodShape_cases hF with hc | ⟨i1, hc⟩ | ⟨i1, i2, c, d, hc⟩
  · rw [hc] at hFi
    rw [List.prefix_nil.1 hFi] at ht
    simp [lastRecord, lookupD, isTerminalAt] at ht
  · rw [hc] at hFi
    rcases prefix_single hFi with he | he <;> rw [he] at ht
    · simp [lastRecord, lookupD, isTerminalAt] at ht
    · have : isTerminalAt (lastRecord (lookupD [] id) [JobOp.create i1]) = false := by
        simp [lastRecord, recOf, lookupD, isTerminalAt, isCompleted, isFailed,
          processingRecord]
      rw [this] at ht
      cases ht
  · rw [hc] at hFi hFj
    rcases prefix_pair hFi with he | he | he
    · rw [he] at ht
      simp [lastRecord, lookupD, isTerminalAt] at ht
    · rw [he] at ht
      have : isTerminalAt (lastRecord (lookupD [] id) [JobOp.create i1]) = false := by
        simp [lastRecord, recOf, lookupD, isTerminalAt, isCompleted, isFailed,
          processingRecord]
      rw [this] at ht
      cases ht
    · have hji : opsFor id (tr.take j) <+: opsFor id (tr.take i) := he ▸ hFj
      have heq := prefix_antisymm hFij hji
      rw [heq]

theorem created_processing (tr : List JobOp) (id : String) (i : Nat)
    (hc : opsFor id (tr.take i) = [JobOp.create id]) :
    lookupD (runOps [] (tr.take i)) id = some processingRecord := by
  rw [runOps_lookup, hc]
  rfl

theorem opsFor_counts (tr : List JobOp) (h : shapeOKb tr = true) (id : String) :
    ((opsFor id tr).countP fun op => match op with
      | JobOp.create _ => true
      | _ => false) ≤ 1 ∧
    ((opsFor id tr).countP fun op => match op with
      | JobOp.finalize _ _ _ => true
      | _ => false) ≤ 1 := by
  rcases goodShape_cases (shape_any tr h id) with hc | ⟨i1, hc⟩ | ⟨i1, i2, c, d, hc⟩ <;>
    rw [hc] <;> constructor <;>
    simp [List.countP_cons, List.countP_nil]

theorem process_writes_terminal (id : String) (doc : List Char)
    (chat : Except (String × String) String) (jobs : Store) :
    lookupD (process_summary_with_ollama id doc chat jobs) id =
      some (terminalRecord chat doc) := by
  cases chat <;>
    simp [process_summary_with_ollama, terminalRecord, lookupD_setD_self]

theorem terminal_dichotomy (chat : Except (String × String) String) (doc : List Char) :
    (isCompleted (terminalRecord chat doc) = true ∧
      isFailed (terminalRecord chat doc) = false ∧ ∃ s, chat = Except.ok s) ∨
    (isCompleted (terminalRecord chat doc) = false ∧
      isFailed (terminalRecord chat doc) = true ∧ ∃ e, chat = Except.error e) := by
  cases chat with
  | ok s =>
    left
    refine ⟨?_, ?_, s, rfl⟩ <;>
      simp [terminalRecord, completedRecord, isCompleted, isFailed, lookupD]
  | error e =>
    right
    refine ⟨?_, ?_, e, rfl⟩ <;>
      simp [terminalRecord, failedRecord, isCompleted, isFailed, lookupD]

/-! ## Dict lemmas about the signature fields -/

theorem strip_setD_sig (d : Dict) (k : String) (v : JValue)
    (h : (k == "signature" || k == "public_key") = true) :
    stripSigFields (setD d k v) = stripSigFields d := by
  induction d with
  | nil => simp [setD, stripSigFields, List.filter, h]
  | cons kv rest ih =>
    by_cases hk : kv.1 = k
    · simp only [setD, if_pos hk, stripSigFields, List.filter]
      rw [hk]
      simp [h]
    · simp only [setD, if_neg hk, stripSigFields, List.filter]
      by_cases hp : (kv.1 == "signature" || kv.1 == "public_key") = true
      · simp only [hp]
        simp only [stripSigFields] at ih
        rw [ih]
      · simp only [Bool.not_eq_true] at hp
        simp only [hp]
        simp only [stripSigFields] at ih
        rw [ih]

theorem strip_setD_other (d : Dict) (k : String) (v : JValue)
    (h1 : k ≠ "signature") (h2 : k ≠ "public_key") :
    stripSigFields (setD d k v) = setD (stripSigFields d) k v := by
  have hp : ((k == "signature" || k == "public_key") = false) := by
    simp [h1, h2]
  induction d with
  | nil => simp [setD, stripSigFields, List.filter, hp]
  | cons kv rest ih =>
    by_cases hk : kv.1 = k
    · have b1 : (k == "signature") = false := by simp [h1]
      have b2 : (k == "public_key") = false := by simp [h2]
      simp [setD, stripSigFields, List.filter, hk, b1, b2]
    · simp only [setD, if_neg hk, stripSigFields, List.filter]
      by_cases hq : (kv.1 == "signature" || kv.1 == "public_key") = true
      · simp only [hq, Bool.not_true]
        simp only [stripSigFields] at ih
        rw [ih]
      · simp only [Bool.not_eq_true] at hq
        simp only [hq, Bool.not_false]
        simp only [stripSigFields] at ih
        rw [ih, setD, if_neg hk]

theorem strip_signed (resp : Dict) (sigv pkv : JValue) :
    stripSigFields (setD (setD resp "signature" sigv) "public_key" pkv) =
      stripSigFields resp := by
  rw [strip_setD_sig _ _ _ (by decide), strip_setD_sig _ _ _ (by decide)]

/-! ## A concrete signature scheme instance for witnesses

A toy instantiation of the abstract SECP256K1 parameters that satisfies the
properties the claims assume of the real primitives (deterministic signing,
public-key recovery correct on the signed digest and injective in the
digest). -/

/-- Unary rendering of a number as a character run. -/
def natRepL (n : Nat) : List Char := List.replicate n 'a'

/-- Toy public-key recovery: on the tagged digest it returns the embedded
key, on any other digest a value that determines the digest. -/
def toyRecover (s : Nat × List Char) (h : Nat) : List Char :=
  if h = s.1 then s.2 else natRepL h ++ '?' :: s.2

theorem toyRecover_inj (s : Nat × List Char) {h1 h2 : Nat}
    (he : toyRecover s h1 = toyRecover s h2) : h1 = h2 := by
  by_cases e1 : h1 = s.1 <;> by_cases e2 : h2 = s.1
  · omega
  · exfalso
    simp only [toyRecover, if_pos e1, if_neg e2] at he
    have hl := congrArg List.length he
    simp [natRepL] at hl
    omega
  · exfalso
    simp only [toyRecover, if_neg e1, if_pos e2] at he
    have hl := congrArg List.length he
    simp [natRepL] at hl
    omega
  · simp only [toyRecover, if_neg e1, if_neg e2] at he
    have hl := congrArg List.length he
    simp [natRepL] at hl
    omega

/-- A completed record as main.py finalizes it, used in several concrete
scenarios below. -/
def completedRec0 : Dict :=
  [("status", .str "completed"), ("summary", .str "s"),
   ("word_count", .int 1), ("reading_time", .str "1 minute")]

/-- A job table holding one completed job. -/
def jobs0 : Store := [("j1", completedRec0)]

/-- A 50-character document ("A" * 50). -/
def docA : List Char := List.replicate 50 'A'

/-! ## Claim C1 -/

/-- Claim C1, counterexample: with key material available, the GET handler
returns the stored record as-is; the returned payload has no signature
field, although sign_response would have attached one. -/
theorem get_status_unsigned_counterexample :
    get_summary_status jobs0 "j1" = .ok completedRec0 ∧
    lookupD completedRec0 "signature" = none ∧
    lookupD (sign_response (fun l => l.length) (fun _ _ => Except.ok (0 : Nat))
      (fun _ => "S") (some (1 : Nat)) (some "PK") completedRec0) "signature" =
      some (.str "S") :=
  ⟨rfl, rfl, rfl⟩

/-- Claim C1, amended: a GET status query for a stored identifier returns
the stored job record unchanged — the status endpoint never invokes the
signing service, so no signature or public_key field is attached; an
unknown identifier yields 404. -/
theorem get_status_returns_stored_record (jobs : Store) (id : String) :
    (∀ r, lookupD jobs id = some r → get_summary_status jobs id = .ok r) ∧
    (lookupD jobs id = none → get_summary_status jobs id = .error 404) := by
  constructor
  · intro r hr
    simp [get_summary_status, hr]
  · intro hr
    simp [get_summary_status, hr]

/-- Witness for get_status_returns_stored_record at a concrete store. -/
theorem get_status_returns_stored_record_witness :
    get_summary_status jobs0 "j1" = .ok completedRec0 ∧
    get_summary_status ([] : Store) "nope" = .error 404 :=
  ⟨(get_status_returns_stored_record jobs0 "j1").1 completedRec0 rfl,
   (get_status_returns_stored_record ([] : Store) "nope").2 rfl⟩

/-! ## Claim C2 -/

/-- Claim C2, counterexample: an accepted submission's response has exactly
the keys job_id, status, status_url, provider — there is no timestamp
field. -/
theorem summarize_response_no_timestamp_counterexample :
    (summarize_doc docA "j" "ollama" []).1 = .ok (summarizeResponse "j" "ollama") ∧
    (summarizeResponse "j" "ollama").map Prod.fst =
      ["job_id", "status", "status_url", "provider"] ∧
    lookupD (summarizeResponse "j" "ollama") "timestamp" = none :=
  ⟨rfl, rfl, rfl⟩

/-- Claim C2, amended: a document shorter than 50 or longer than 400000
characters is rejected with 400 and the job table is unchanged; otherwise
the response carries exactly job_id, status = "processing", status_url and
provider (no timestamp field), and the new record is immediately
retrievable as \x7b"status": "processing"\x7d. -/
theorem summarize_doc_validation_and_response (doc : List Char)
    (id prov : String) (jobs : Store) :
    ((doc.length < 50 ∨ doc.length > 400000) →
      summarize_doc doc id prov jobs = (.error 400, jobs)) ∧
    (50 ≤ doc.length → doc.length ≤ 400000 →
      summarize_doc doc id prov jobs =
        (.ok (summarizeResponse id prov), setD jobs id processingRecord) ∧
      (summarizeResponse id prov).map Prod.fst =
        ["job_id", "status", "status_url", "provider"] ∧
      lookupD (summarizeResponse id prov) "status" = some (.str "processing") ∧
      lookupD (setD jobs id processingRecord) id = some processingRecord) := by
  constructor
  · intro h
    rcases h with h | h
    · simp [summarize_doc, MIN_DOCUMENT_LENGTH, h]
    · have h2 : ¬(doc.length < 50) := by omega
      simp [summarize_doc, MIN_DOCUMENT_LENGTH, MAX_DOCUMENT_LENGTH, h, h2]
  · intro hlo hhi
    have h1 : ¬(doc.length < 50) := by omega
    have h2 : ¬(doc.length > 400000) := by omega
    refine ⟨?_, rfl, rfl, lookupD_setD_self jobs id processingRecord⟩
    simp [summarize_doc, MIN_DOCUMENT_LENGTH, MAX_DOCUMENT_LENGTH, createJob, h1, h2]

/-- Witness for summarize_doc_validation_and_response: rejection at 49 and
400001 characters, acceptance at 50. -/
theorem summarize_doc_validation_and_response_witness :
    summarize_doc (List.replicate 49 'A') "j" "ollama" [] = (.error 400, []) ∧
    summarize_doc (List.replicate 400001 'A') "j" "ollama" [] = (.error 400, []) ∧
    summarize_doc docA "j" "ollama" [] =
      (.ok (summarizeResponse "j" "ollama"), setD [] "j" processingRecord) :=
  ⟨(summarize_doc_validation_and_response _ "j" "ollama" []).1 (Or.inl (by decide)),
   (summarize_doc_validation_and_response _ "j" "ollama" []).1
     (Or.inr (by rw [List.length_replicate]; omega)),
   ((summarize_doc_validation_and_response docA "j" "ollama" []).2 (by decide)
      (by decide)).1⟩

/-! ## Claim C5 -/

/-- Claim C5, counterexample: in debug mode (DEBUG_SIGNING=true) the public
key derivation runs outside the try block, so its failure propagates out of
initialization; and in production mode a set_metadata failure is caught but
leaves the key material assigned — the service continues with signing
enabled, not disabled. -/
theorem init_signing_counterexample :
    initSigning true "development" "K" (Except.ok "K")
      (fun _ => Except.error "boom") (Except.ok ()) = Except.error "boom" ∧
    initSigning false "production" "K" (Except.ok "K2")
      (fun _ => Except.ok "PUB") (Except.error "meta") =
      Except.ok (some "K2", some "PUB") :=
  ⟨rfl, rfl⟩

/-- Claim C5, amended: sign_response returns the payload unchanged when no
key material is present, and when the signing call raises; initialization
never raises outside debug mode (all external-facility failures are
caught), though a failure after key generation can leave signing partially
enabled. -/
theorem signing_failures_absorbed {Key Sig : Type} (hashF : List Char → Nat)
    (signTry : Key → Nat → Except String Sig) (sigHex : Sig → String)
    (pk : Option String) (resp : Dict) :
    (sign_response hashF signTry sigHex (none : Option Key) pk resp = resp) ∧
    (∀ (k : Key) (e : String),
      signTry k (hashF (canonicalize (.obj (stripSigFields resp)))) =
        Except.error e →
      sign_response hashF signTry sigHex (some k) pk resp = resp) ∧
    (∀ (env : String) (mock : Key) (gen : Except String Key)
       (der : Key → Except String String) (meta : Except String Unit),
       ∃ out, initSigning false env mock gen der meta = Except.ok out) := by
  refine ⟨rfl, ?_, ?_⟩
  · intro k e he
    simp [sign_response, he]
  · intro env mock gen der meta
    by_cases henv : env = "production"
    · subst henv
      cases gen with
      | error e => exact ⟨(none, none), by simp [initSigning]⟩
      | ok k =>
        cases hder : der k with
        | error e => exact ⟨(some k, none), by simp [initSigning, hder]⟩
        | ok pub =>
          cases meta with
          | error e => exact ⟨(some k, some pub), by simp [initSigning, hder]⟩
          | ok u => exact ⟨(some k, some pub), by simp [initSigning, hder]⟩
    · exact ⟨(none, none), by simp [initSigning, henv]⟩

/-- Length of a character list, the digest stand-in of the witnesses. -/
def hashLen : List Char → Nat := fun l => l.length

/-- A signing call that always raises. -/
def sigTryDown : Nat → Nat → Except String Nat := fun _ _ => Except.error "down"

/-- A constant hex rendering for toy signatures. -/
def sigHexS : Nat → String := fun _ => "S"

/-- Witness for signing_failures_absorbed at concrete inputs. -/
theorem signing_failures_absorbed_witness :
    (sign_response hashLen sigTryDown sigHexS (none : Option Nat) none
      completedRec0 = completedRec0) ∧
    (sign_response hashLen sigTryDown sigHexS (some 0) none
      completedRec0 = completedRec0) ∧
    (∃ out, initSigning false "development" (0 : Nat) (Except.ok 0)
      (fun _ => Except.ok "P") (Except.ok ()) = Except.ok out) :=
  ⟨(signing_failures_absorbed hashLen sigTryDown sigHexS none completedRec0).1,
   (signing_failures_absorbed hashLen sigTryDown sigHexS none
      completedRec0).2.1 0 "down" rfl,
   (signing_failures_absorbed hashLen sigTryDown sigHexS none
      completedRec0).2.2 "development" 0 (Except.ok 0)
      (fun _ => Except.ok "P") (Except.ok ())⟩

/-! ## Claim C7 -/

/-- Claim C7, counterexample: the finalized record of the success path
holds reading_time as the formatted string "1 minute" (not an integer
readingTimeMinutes field), and — in main.py's executed path — no timestamp
field, although word_count is indeed 1 for the 50-character document. -/
theorem reading_time_string_counterexample :
    lookupD (completedRecord "s" docA) "reading_time" = some (.str "1 minute") ∧
    lookupD (completedRecord "s" docA) "readingTimeMinutes" = none ∧
    lookupD (completedRecord "s" docA) "timestamp" = none ∧
    word_count docA = 1 :=
  ⟨rfl, rfl, rfl, rfl⟩

/-- Claim C7, amended: a successful capability call finalizes the job as
completed with word_count = number of whitespace-separated tokens (Python
str.split(), which splits on all Unicode whitespace - the last two
conjuncts exercise U+00A0 and U+2003), reading_time = the English string
for max(1, word_count // 200) minutes, and no timestamp field in main.py's
path (the provider-module path adds timestamp = int(time.time())); "A"*50
yields word_count 1 and reading_time "1 minute". -/
theorem process_summary_success_fields (id : String) (doc : List Char)
    (summary : String) (jobs : Store) (now : Int) :
    process_summary_with_ollama id doc (.ok summary) jobs =
      setD jobs id (completedRecord summary doc) ∧
    lookupD (completedRecord summary doc) "status" = some (.str "completed") ∧
    lookupD (completedRecord summary doc) "word_count" =
      some (.int (word_count doc : Int)) ∧
    lookupD (completedRecord summary doc) "reading_time" =
      some (.str (minuteStr (max 1 (word_count doc / 200)))) ∧
    lookupD (completedRecord summary doc) "timestamp" = none ∧
    lookupD (completedRecordP summary doc now) "timestamp" = some (.int now) ∧
    word_count docA = 1 ∧
    minuteStr (reading_time docA) = "1 minute" ∧
    word_count ['a', Char.ofNat 160, 'b'] = 2 ∧
    word_count ['a', Char.ofNat 8195, 'b'] = 2 :=
  ⟨rfl, rfl, rfl, rfl, rfl, rfl, rfl, rfl, rfl, rfl⟩

/-! ## Claim C9 -/

/-- Claim C9, counterexample: creating a job whose identifier already holds
a completed record silently overwrites it with the processing record — no
DuplicateJob failure exists — and the stored record carries no timestamp. -/
theorem create_duplicate_overwrites_counterexample :
    createJob jobs0 "j1" = [("j1", processingRecord)] ∧
    isCompleted completedRec0 = true ∧
    isCompleted processingRecord = false ∧
    lookupD processingRecord "timestamp" = none :=
  ⟨rfl, rfl, rfl, rfl⟩

/-- Claim C9, amended: the creation line jobs[job_id] = \x7b"status":
"processing"\x7d unconditionally assigns: a fresh identifier gets the
processing record (with no timestamp), other entries are untouched, and an
existing record is overwritten rather than failing with DuplicateJob. -/
theorem createJob_overwrites_and_no_timestamp (jobs : Store) (id : String) :
    createJob jobs id = setD jobs id processingRecord ∧
    lookupD (createJob jobs id) id = some processingRecord ∧
    (∀ id2, id2 ≠ id → lookupD (createJob jobs id) id2 = lookupD jobs id2) ∧
    lookupD processingRecord "timestamp" = none := by
  refine ⟨rfl, lookupD_setD_self jobs id processingRecord, ?_, rfl⟩
  intro id2 h
  exact lookupD_setD_ne jobs id id2 processingRecord (fun hc => h hc.symm)

/-- Witness for createJob_overwrites_and_no_timestamp at a concrete store. -/
theorem createJob_overwrites_and_no_timestamp_witness :
    lookupD (createJob jobs0 "j2") "j2" = some processingRecord ∧
    lookupD (createJob jobs0 "j2") "j1" = lookupD jobs0 "j1" :=
  ⟨(createJob_overwrites_and_no_timestamp jobs0 "j2").2.1,
   (createJob_overwrites_and_no_timestamp jobs0 "j2").2.2.1 "j1" (by decide)⟩

/-! ## Claim C3 -/

/-- Claim C3: canonicalization is invariant under permutation of the input
mapping's construction order — two payload dicts with identical key/value
sets at every nesting level produce identical canonical byte strings. -/
theorem canonicalize_key_order_invariant (fs gs : List (String × JValue))
    (h : JEquiv (.obj fs) (.obj gs))
    (w1 : wfj (.obj fs) = true) (w2 : wfj (.obj gs) = true) :
    canonicalize (.obj fs) = canonicalize (.obj gs) :=
  canon_eq_aux (sizeOf (JValue.obj fs) + sizeOf (JValue.obj gs)) _ _ le_rfl
    h.1 h.2 w1 w2

/-- A payload and the same payload constructed in a different insertion
order, including at the nested level. -/
def objW1 : List (String × JValue) :=
  [("b", .obj [("y", .int 2), ("x", .int 1)]), ("a", .int 3)]

def objW2 : List (String × JValue) :=
  [("a", .int 3), ("b", .obj [("x", .int 1), ("y", .int 2)])]

/-- Witness for canonicalize_key_order_invariant at a concrete pair. -/
theorem canonicalize_key_order_invariant_witness :
    JEquiv (.obj objW1) (.obj objW2) ∧ wfj (.obj objW1) = true ∧
    wfj (.obj objW2) = true ∧
    canonicalize (.obj objW1) = canonicalize (.obj objW2) :=
  ⟨⟨by decide, by decide⟩, by decide, by decide,
   canonicalize_key_order_invariant objW1 objW2 ⟨by decide, by decide⟩
     (by decide) (by decide)⟩

/-! ## Claim C10 -/

/-- A payload holding the non-ASCII character U+00E9. -/
def payload10 : Dict := [("s", .str (String.mk [Char.ofNat 233]))]

/-- Claim C10: the canonical byte string is always pure ASCII — non-ASCII
characters are serialized as \uXXXX escapes (json.dumps default
ensure_ascii) — so a serializer that emits raw UTF-8 produces a different
byte string for such payloads (hence a different digest). -/
theorem canonical_serialization_ascii_only :
    (∀ p : Dict,
      (canonicalize (.obj p)).all (fun c => decide (c.toNat < 128)) = true) ∧
    canonicalize (.obj payload10) = "\x7b\"s\":\"\\u00e9\"\x7d".data ∧
    canonicalizeRawUtf8 (.obj payload10) ≠ canonicalize (.obj payload10) := by
  refine ⟨?_, by decide, by decide⟩
  intro p
  rw [List.all_eq_true]
  intro c hc
  simp only [decide_eq_true_eq]
  exact canonicalize_ascii _ c hc

/-! ## Claim C8 -/

/-- Claim C8: under the shape the code guarantees per identifier (at most
one create with a fresh uuid4, then the single scheduled task's one
terminal write), a record that has reached a terminal state is never
changed again; each identifier sees at most one create and one finalize;
the background task writes exactly one terminal record, which is completed
exactly on capability success and failed exactly on capability failure; and
after its create (before any finalize) a job reads as processing. -/
theorem job_lifecycle_invariant (tr : List JobOp) (h : shapeOKb tr = true) :
    (∀ id, ∀ i j : Nat, i ≤ j →
      isTerminalAt (lookupD (runOps [] (tr.take i)) id) = true →
      lookupD (runOps [] (tr.take j)) id = lookupD (runOps [] (tr.take i)) id) ∧
    (∀ id, ((opsFor id tr).countP fun op => match op with
        | JobOp.create _ => true
        | _ => false) ≤ 1 ∧
      ((opsFor id tr).countP fun op => match op with
        | JobOp.finalize _ _ _ => true
        | _ => false) ≤ 1) ∧
    (∀ (id : String) (doc : List Char) chat (jobs : Store),
      lookupD (process_summary_with_ollama id doc chat jobs) id =
        some (terminalRecord chat doc)) ∧
    (∀ chat (doc : List Char),
      (isCompleted (terminalRecord chat doc) = true ∧
        isFailed (terminalRecord chat doc) = false ∧ ∃ s, chat = Except.ok s) ∨
      (isCompleted (terminalRecord chat doc) = false ∧
        isFailed (terminalRecord chat doc) = true ∧ ∃ e, chat = Except.error e)) ∧
    (∀ (id : String) (i : Nat), opsFor id (tr.take i) = [JobOp.create id] →
      lookupD (runOps [] (tr.take i)) id = some processingRecord) :=
  ⟨fun id i j hij ht => terminal_persist tr h id hij ht,
   fun id => opsFor_counts tr h id,
   fun id doc chat jobs => process_writes_terminal id doc chat jobs,
   fun chat doc => terminal_dichotomy chat doc,
   fun id i hc => created_processing tr id i hc⟩

/-- A concrete trace: submit job a, finalize it successfully, submit job b. -/
def trW : List JobOp :=
  [JobOp.create "a", JobOp.finalize "a" (Except.ok "sum") docA, JobOp.create "b"]

/-- Witness for job_lifecycle_invariant on the concrete trace: job a is
terminal after two steps and its record is unchanged by the third step. -/
theorem job_lifecycle_invariant_witness :
    shapeOKb trW = true ∧
    lookupD (runOps [] (trW.take 3)) "a" = lookupD (runOps [] (trW.take 2)) "a" :=
  ⟨by decide,
   (job_lifecycle_invariant trW (by decide)).1 "a" 2 3 (by decide) (by decide)⟩

/-! ## Claim C6 -/

/-- Claim C6: sign_response computes the digest over the payload with any
pre-existing signature/public_key entries stripped (the hypothesis ties the
signature s to exactly that digest), attaches signature and public_key, and
preserves every other binding of the input; the embedding is functional, so
the input dict itself is untouched — the copy semantics appears as the
preservation of all non-signature bindings and of the stripped view. -/
theorem sign_response_strip_and_copy {Key Sig : Type} (hashF : List Char → Nat)
    (signTry : Key → Nat → Except String Sig) (sigHex : Sig → String)
    (k : Key) (pk : Option String) (resp : Dict) (s : Sig)
    (hs : signTry k (hashF (canonicalize (.obj (stripSigFields resp)))) =
      Except.ok s) :
    lookupD (sign_response hashF signTry sigHex (some k) pk resp) "signature" =
      some (.str (sigHex s)) ∧
    lookupD (sign_response hashF signTry sigHex (some k) pk resp) "public_key" =
      some (pubKeyJ pk) ∧
    (∀ key2, key2 ≠ "signature" → key2 ≠ "public_key" →
      lookupD (sign_response hashF signTry sigHex (some k) pk resp) key2 =
        lookupD resp key2) ∧
    stripSigFields (sign_response hashF signTry sigHex (some k) pk resp) =
      stripSigFields resp := by
  have he : sign_response hashF signTry sigHex (some k) pk resp =
      setD (setD resp "signature" (.str (sigHex s))) "public_key" (pubKeyJ pk) := by
    simp [sign_response, hs]
  rw [he]
  refine ⟨?_, ?_, ?_, ?_⟩
  · rw [lookupD_setD_ne _ _ _ _ (by decide)]
    exact lookupD_setD_self _ _ _
  · exact lookupD_setD_self _ _ _
  · intro key2 h1 h2
    rw [lookupD_setD_ne _ _ _ _ (fun hc => h2 hc.symm),
        lookupD_setD_ne _ _ _ _ (fun hc => h1 hc.symm)]
  · exact strip_signed resp _ _

/-- A response that already carries a stale signature entry. -/
def respC6 : Dict := [("signature", .str "old"), ("a", .int 1)]

/-- A toy signing call that embeds the digest in the signature. -/
def sigTryTag : Nat → Nat → Except String Nat := fun _ h => Except.ok h

/-- Witness for sign_response_strip_and_copy on a payload containing a
pre-existing signature field. -/
theorem sign_response_strip_and_copy_witness :
    lookupD (sign_response hashLen sigTryTag sigHexS (some 0) (some "PK") respC6)
      "signature" =
      some (.str (sigHexS
        (hashLen (canonicalize (.obj (stripSigFields respC6)))))) ∧
    lookupD (sign_response hashLen sigTryTag sigHexS (some 0) (some "PK") respC6)
      "a" = lookupD respC6 "a" :=
  ⟨(sign_response_strip_and_copy hashLen sigTryTag sigHexS 0 (some "PK") respC6
      (hashLen (canonicalize (.obj (stripSigFields respC6)))) rfl).1,
   (sign_response_strip_and_copy hashLen sigTryTag sigHexS 0 (some "PK") respC6
      (hashLen (canonicalize (.obj (stripSigFields respC6)))) rfl).2.2.1 "a"
      (by decide) (by decide)⟩

/-! ## Claim C4 -/

/-- Claim C4: with a working signing key (the hypotheses state what the
SECP256K1 primitives guarantee: deterministic signing succeeds, recovery on
the signed digest returns the signer's public key, recovery is injective in
the digest, and hex round-trips), verifying a signed envelope succeeds; and
mutating any field other than signature/public_key, provided the canonical
digests do not collide (hne), makes verification fail. -/
theorem sign_verify_roundtrip_and_tamper {Key Sig PubKey : Type}
    (hashF : List Char → Nat) (signTry : Key → Nat → Except String Sig)
    (sigHex : Sig → String) (parseSig : String → Option Sig)
    (recover : Sig → Nat → PubKey) (pubHex : PubKey → String)
    (k : Key) (pkStr : String) (resp : Dict) (s : Sig) (m : String) (v : JValue)
    (hs : signTry k (hashF (canonicalize (.obj (stripSigFields resp)))) =
      Except.ok s)
    (hparse : parseSig (sigHex s) = some s)
    (hrec : pubHex (recover s
      (hashF (canonicalize (.obj (stripSigFields resp))))) = pkStr)
    (hinj : ∀ h1 h2 : Nat, pubHex (recover s h1) = pubHex (recover s h2) → h1 = h2)
    (hm1 : m ≠ "signature") (hm2 : m ≠ "public_key")
    (hne : hashF (canonicalize (.obj (setD (stripSigFields resp) m v))) ≠
      hashF (canonicalize (.obj (stripSigFields resp)))) :
    verify hashF parseSig recover pubHex
      (sign_response hashF signTry sigHex (some k) (some pkStr) resp) = true ∧
    verify hashF parseSig recover pubHex
      (setD (sign_response hashF signTry sigHex (some k) (some pkStr) resp) m v) =
      false := by
  have he : sign_response hashF signTry sigHex (some k) (some pkStr) resp =
      setD (setD resp "signature" (.str (sigHex s))) "public_key" (.str pkStr) := by
    simp [sign_response, hs, pubKeyJ]
  rw [he]
  constructor
  · have l1 : lookupD (setD (setD resp "signature" (.str (sigHex s)))
        "public_key" (.str pkStr)) "signature" = some (.str (sigHex s)) := by
      rw [lookupD_setD_ne _ _ _ _ (by decide)]
      exact lookupD_setD_self _ _ _
    have l2 : lookupD (setD (setD resp "signature" (.str (sigHex s)))
        "public_key" (.str pkStr)) "public_key" = some (.str pkStr) :=
      lookupD_setD_self _ _ _
    have l3 : stripSigFields (setD (setD resp "signature" (.str (sigHex s)))
        "public_key" (.str pkStr)) = stripSigFields resp := strip_signed resp _ _
    simp [verify, l1, l2, l3, hparse, hrec]
  · have l1 : lookupD (setD (setD (setD resp "signature" (.str (sigHex s)))
        "public_key" (.str pkStr)) m v) "signature" = some (.str (sigHex s)) := by
      rw [lookupD_setD_ne _ _ _ _ hm1,
          lookupD_setD_ne _ _ _ _ (by decide)]
      exact lookupD_setD_self _ _ _
    have l2 : lookupD (setD (setD (setD resp "signature" (.str (sigHex s)))
        "public_key" (.str pkStr)) m v) "public_key" = some (.str pkStr) := by
      rw [lookupD_setD_ne _ _ _ _ hm2]
      exact lookupD_setD_self _ _ _
    have l3 : stripSigFields (setD (setD (setD resp "signature" (.str (sigHex s)))
        "public_key" (.str pkStr)) m v) = setD (stripSigFields resp) m v := by
      rw [strip_setD_other _ _ _ hm1 hm2, strip_signed]
    simp only [verify, l1, l2, l3, hparse]
    rw [beq_eq_false_iff_ne]
    intro hcontra
    exact hne (hinj _ _ (hcontra.trans hrec.symm))

/-- The payload of the C4 witness. -/
def respC4 : Dict := [("a", .int 1)]

/-- The toy key (also its own public key; compressed encoding is String.mk). -/
def keyW : List Char := ['P', 'K']

/-- Toy recoverable signing: the signature embeds digest and key. -/
def signTryW : List Char → Nat → Except String (Nat × List Char) :=
  fun k h => Except.ok (h, k)

/-- Toy signature hex rendering. -/
def sigHexW : Nat × List Char → String := fun _ => "SIG"

/-- Toy signature parsing (bytes.fromhex analogue). -/
def parseW : String → Option (Nat × List Char) :=
  fun t =>
    if t = "SIG" then
      some (hashLen (canonicalize (.obj (stripSigFields respC4))), keyW)
    else none

/-- Witness for sign_verify_roundtrip_and_tamper with the toy scheme:
verification succeeds on the signed envelope and fails after mutating
field "a". -/
theorem sign_verify_roundtrip_and_tamper_witness :
    verify hashLen parseW toyRecover String.mk
      (sign_response hashLen signTryW sigHexW (some keyW)
        (some (String.mk keyW)) respC4) = true ∧
    verify hashLen parseW toyRecover String.mk
      (setD (sign_response hashLen signTryW sigHexW (some keyW)
        (some (String.mk keyW)) respC4) "a" (.str "xx")) = false :=
  sign_verify_roundtrip_and_tamper hashLen signTryW sigHexW parseW toyRecover
    String.mk keyW (String.mk keyW) respC4
    (hashLen (canonicalize (.obj (stripSigFields respC4))), keyW) "a" (.str "xx")
    rfl rfl (by decide)
    (fun h1 h2 he => toyRecover_inj _ (congrArg String.data he))
    (by decide) (by decide) (by decide)
